import Mathlib

/-!
Verification development for the go-lsp-client HTTP-to-LSP bridge.

Shallow embedding of the core components:
* byte-level message framing: `request.format` (src/unnamed/part_000, lines 21-43)
  and the inbound reader `lspClient.receive` (src/unnamed/part_002, lines 165-207);
* the event emitter (src/events/events.go);
* the id-allocation discipline of `mateServer.request` / `requestAndWait`
  (src/unnamed/part_000 lines 452-466, src/server.go lines 84-103);
* the `wait` primitive (src/unnamed/part_000, lines 468-488);
* the child-process supervisor (src/unnamed/part_002, lines 43-81);
* the session manager handlers `onInitialize`, `onDidOpen`, `onDidClose`
  (src/unnamed/part_000, lines 527-615) and `mateServer.initialize`
  (src/unnamed/part_000, lines 803-808).

Bytes are modelled as natural numbers, Go ints as `Int` where sign matters,
maps as functions into `Option`, and concurrency as explicit interleavings of
atomic steps (a schedule is a list of thread / action choices).
-/

namespace GoLspClient

/-! ## Bytes and decimal rendering

`request.format` writes `Content-Length: <n>` with `fmt.Sprintf("%d", len(json))`;
the reader parses it back with `strconv.ParseInt(l[0], 10, 32)` whose error is
ignored (src/unnamed/part_002 line 189).  We model the decimal rendering and
parsing on byte lists (`List Nat`). -/

/-- Bytes of an ASCII string constant (all wire constants involved are ASCII). -/
def strBytes (s : String) : List Nat := s.toList.map Char.toNat

/-- Decimal digits of `n`, most significant first, as ASCII bytes
(the output of Go `fmt.Sprintf("%d", n)` for `n ≥ 0`). -/
def natToDigits (n : Nat) : List Nat :=
  if _h : n < 10 then [48 + n]
  else natToDigits (n / 10) ++ [48 + n % 10]
termination_by n
decreasing_by exact Nat.div_lt_self (by omega) (by omega)

/-- Value of a digit string (the accumulator loop inside `strconv.ParseInt`). -/
def digitsVal (l : List Nat) : Nat := l.foldl (fun a c => a * 10 + (c - 48)) 0

def isDigitByte (b : Nat) : Bool := 48 ≤ b && b ≤ 57

/-- Go `strconv.ParseInt(s, 10, 32)` restricted to the unsigned inputs the bridge
produces: `none` on the empty string or any non-digit byte (Go then returns an
error, which `receive` ignores, leaving the length 0 — see `mimeCL`).
The 32-bit clamping of `ParseInt` is not modelled; the frames in the claims
are far below 2^31 bytes. -/
def digitsToNat (l : List Nat) : Option Nat :=
  if l ≠ [] ∧ l.all isDigitByte then some (digitsVal l) else none

theorem natToDigits_ne_nil (n : Nat) : natToDigits n ≠ [] := by
  unfold natToDigits
  split <;> simp

theorem natToDigits_digits (n : Nat) : ∀ b ∈ natToDigits n, 48 ≤ b ∧ b ≤ 57 := by
  induction n using natToDigits.induct with
  | case1 n h =>
    rw [natToDigits, dif_pos h]
    intro b hb
    simp only [List.mem_singleton] at hb
    subst hb
    omega
  | case2 n h ih =>
    rw [natToDigits, dif_neg h]
    intro b hb
    rw [List.mem_append] at hb
    rcases hb with hb | hb
    · exact ih b hb
    · simp only [List.mem_singleton] at hb
      subst hb
      have := Nat.mod_lt n (show 0 < 10 by omega)
      omega

theorem digitsVal_append_single (l : List Nat) (b : Nat) :
    digitsVal (l ++ [b]) = digitsVal l * 10 + (b - 48) := by
  simp [digitsVal, List.foldl_append]

/-- Decimal round trip: parsing the rendered digits gives back the number. -/
theorem digitsVal_natToDigits (n : Nat) : digitsVal (natToDigits n) = n := by
  induction n using natToDigits.induct with
  | case1 n h =>
    rw [natToDigits, dif_pos h]
    simp [digitsVal]
  | case2 n h ih =>
    rw [natToDigits, dif_neg h, digitsVal_append_single, ih]
    omega

theorem digitsToNat_natToDigits (n : Nat) : digitsToNat (natToDigits n) = some n := by
  have hd := natToDigits_digits n
  have hne := natToDigits_ne_nil n
  unfold digitsToNat
  rw [if_pos]
  · rw [digitsVal_natToDigits]
  · refine ⟨hne, ?_⟩
    rw [List.all_eq_true]
    intro b hb
    have := hd b hb
    simp only [isDigitByte, Bool.and_eq_true, decide_eq_true_eq]
    omega

/-! ## Outbound framing (src/unnamed/part_000, lines 21-43) -/

/-- The request id actually written to the wire: `request.getBody`
(part_000 lines 21-31) starts from 1 and only takes the caller id when it is
strictly positive, so id 0 is rewritten to 1. -/
def wireId (id : Int) : Int := if id > 0 then id else 1

/-- The constant `EOL` (part_000 line 8), carriage return then line feed. -/
def CRLF : List Nat := [13, 10]

def contentTypeHeader : List Nat :=
  strBytes "Content-Type: application/vscode-jsonrpc; charset=utf-8"

/-- Model of `request.format` / `notification.format` (part_000 lines 33-43 and 56-66):
a `Content-Length` header with the byte length of the marshalled body, the
content-type header, a blank line, then the body.  The JSON marshalling is kept
opaque: `format body` frames the already-marshalled payload bytes. -/
def format (body : List Nat) : List Nat :=
  strBytes "Content-Length: " ++ natToDigits body.length ++ CRLF ++
    contentTypeHeader ++ CRLF ++ CRLF ++ body

/-! ## Inbound reader (src/unnamed/part_002, lines 165-207) -/

/-- Go `bufio.Reader.ReadString('\n')`: the line up to and including the first LF,
`none` when no LF remains (a read error at end of stream). -/
def readLine : List Nat → Option (List Nat × List Nat)
  | [] => none
  | c :: cs =>
    if c = 10 then some ([10], cs)
    else match readLine cs with
      | none => none
      | some (l, r) => some (c :: l, r)

theorem readLine_length : ∀ (input line rest : List Nat),
    readLine input = some (line, rest) → rest.length < input.length := by
  intro input
  induction input with
  | nil => intro line rest h; simp [readLine] at h
  | cons c cs ih =>
    intro line rest h
    rw [readLine] at h
    by_cases hc : c = 10
    · rw [if_pos hc] at h
      simp only [Option.some.injEq, Prod.mk.injEq] at h
      obtain ⟨-, hr⟩ := h
      subst hr
      simp
    · rw [if_neg hc] at h
      cases hr : readLine cs with
      | none => rw [hr] at h; simp at h
      | some p =>
        obtain ⟨l, r⟩ := p
        rw [hr] at h
        simp only [Option.some.injEq, Prod.mk.injEq] at h
        obtain ⟨-, hrr⟩ := h
        rw [← hrr]
        have := ih l r hr
        simp only [List.length_cons]
        omega

/-- Strip one trailing LF, then one trailing CR, from a line, as `textproto`
does before interpreting a header line. -/
def stripEol (l : List Nat) : List Nat :=
  let l1 := if l.getLast? = some 10 then l.dropLast else l
  if l1.getLast? = some 13 then l1.dropLast else l1

def isSpaceByte (b : Nat) : Bool := b = 32 || b = 9

/-- Trim leading/trailing spaces and tabs of a header value, as `textproto`
does. -/
def trimSpace (l : List Nat) : List Nat :=
  ((l.dropWhile isSpaceByte).reverse.dropWhile isSpaceByte).reverse

inductive HeaderParse where
  | parseErr : HeaderParse
  | noCL : HeaderParse
  | cl (n : Nat) : HeaderParse
deriving DecidableEq

/-- The per-line MIME-header step of `receive` (part_002 lines 175-189): the
line just read is handed to `textproto.ReadMIMEHeader`.  A blank line yields an
empty header (no Content-Length, loop continues); a non-empty line without a
colon is a parse error (`receive` breaks and returns `(nil, nil)`); otherwise
the key is matched against the canonical `Content-Length` and the value parsed
with `strconv.ParseInt`, whose error is ignored, leaving length 0. -/
def mimeCL (line : List Nat) : HeaderParse :=
  let content := stripEol line
  if content = [] then .noCL
  else if 58 ∉ content then .parseErr
  else
    let key := content.takeWhile (fun b => b ≠ 58)
    let value := trimSpace ((content.dropWhile (fun b => b ≠ 58)).drop 1)
    if key = strBytes "Content-Length" then .cl ((digitsToNat value).getD 0)
    else .noCL

inductive RecvResult where
  /-- the case where `ReadString` failed: `receive` returns `(nil, err)` and the listener
  loop terminates (treated as child exit). -/
  | readErr : RecvResult
  /-- one of the `break` paths: `receive` returns `(nil, nil)`. -/
  | noMsg : RecvResult
  /-- a body of exactly Content-Length bytes was read. -/
  | msg (body : List Nat) : RecvResult
deriving DecidableEq

/-- The Content-Length branch of `receive` (part_002 lines 182-203): read one
more line (the code assumes it is the blank separator), then exactly `n` bytes
as the body; a short read is an `io.ReadFull` error and `receive` breaks. -/
def handleCL (n : Nat) (rest : List Nat) : RecvResult :=
  match readLine rest with
  | none => .noMsg
  | some (_, rest2) => if rest2.length < n then .noMsg else .msg (rest2.take n)

/-- Fuel-indexed body of the `receive` loop.  Each iteration consumes at least
one byte (`readLine_length`), so `input.length` is enough fuel; with fuel 0 the
input is empty and `readLine` fails exactly as the loop would. -/
def receiveFuel : Nat → List Nat → RecvResult
  | 0, _ => .readErr
  | fuel + 1, input =>
    match readLine input with
    | none => .readErr
    | some (line, rest) =>
      match mimeCL line with
      | .parseErr => .noMsg
      | .cl n => handleCL n rest
      | .noCL => receiveFuel fuel rest

/-- Model of `lspClient.receive` (part_002 lines 165-207): read a line, parse it as a
MIME header; when a `Content-Length: n` is present, read ONE more line (assumed
to be the blank separator) and then exactly `n` bytes as the body; otherwise
keep reading lines. -/
def receive (input : List Nat) : RecvResult := receiveFuel input.length input

theorem receiveFuel_cl (fuel : Nat) (input line rest : List Nat) (n : Nat)
    (h1 : readLine input = some (line, rest))
    (h2 : mimeCL line = .cl n) : receiveFuel (fuel + 1) input = handleCL n rest := by
  simp only [receiveFuel, h1, h2]

/-- Fuel irrelevance: any fuel at least the input length computes the same
result, so `receive` is the limit of the loop and the fuel is not an artifact. -/
theorem receiveFuel_sufficient : ∀ (f g : Nat) (input : List Nat),
    input.length ≤ f → input.length ≤ g → receiveFuel f input = receiveFuel g input := by
  intro f
  induction f with
  | zero =>
    intro g input hf _
    have : input = [] := List.length_eq_zero.mp (by omega)
    subst this
    cases g with
    | zero => rfl
    | succ g => simp [receiveFuel, readLine]
  | succ f ih =>
    intro g input hf hg
    cases g with
    | zero =>
      have : input = [] := List.length_eq_zero.mp (by omega)
      subst this
      simp [receiveFuel, readLine]
    | succ g =>
      simp only [receiveFuel]
      cases hr : readLine input with
      | none => rfl
      | some p =>
        obtain ⟨line, rest⟩ := p
        show (match mimeCL line with
          | HeaderParse.parseErr => RecvResult.noMsg
          | HeaderParse.cl n => handleCL n rest
          | HeaderParse.noCL => receiveFuel f rest) =
          (match mimeCL line with
          | HeaderParse.parseErr => RecvResult.noMsg
          | HeaderParse.cl n => handleCL n rest
          | HeaderParse.noCL => receiveFuel g rest)
        cases mimeCL line with
        | parseErr => rfl
        | cl n => rfl
        | noCL =>
          have hlt := readLine_length input line rest hr
          exact ih g rest (by omega) (by omega)

/-! ### Facts about the reader on well-formed header lines -/

theorem readLine_append (pre r : List Nat) (h : ∀ b ∈ pre, b ≠ 10) :
    readLine (pre ++ 10 :: r) = some (pre ++ [10], r) := by
  induction pre with
  | nil => simp [readLine]
  | cons c cs ih =>
    have hc : c ≠ 10 := h c (by simp)
    simp only [List.cons_append, readLine, if_neg hc, List.append_eq]
    rw [ih (fun b hb => h b (by simp [hb]))]

theorem stripEol_crlf (pre : List Nat) : stripEol (pre ++ [13, 10]) = pre := by
  have h1 : pre ++ [13, 10] = (pre ++ [13]) ++ [10] := by simp
  simp only [stripEol, h1, List.getLast?_concat, List.dropLast_concat]
  simp

theorem takeWhile_append_allT (p : Nat → Bool) (xs ys : List Nat)
    (h : ∀ x ∈ xs, p x = true) :
    (xs ++ ys).takeWhile p = xs ++ ys.takeWhile p := by
  induction xs with
  | nil => simp
  | cons c cs ih =>
    simp only [List.cons_append, List.takeWhile_cons, h c (by simp)]
    simp [ih (fun b hb => h b (by simp [hb]))]

theorem dropWhile_append_allT (p : Nat → Bool) (xs ys : List Nat)
    (h : ∀ x ∈ xs, p x = true) :
    (xs ++ ys).dropWhile p = ys.dropWhile p := by
  induction xs with
  | nil => simp
  | cons c cs ih =>
    simp only [List.cons_append, List.dropWhile_cons, h c (by simp), if_true]
    exact ih (fun b hb => h b (by simp [hb]))

theorem dropWhile_eq_self_allF (p : Nat → Bool) (l : List Nat)
    (h : ∀ x ∈ l, p x = false) : l.dropWhile p = l := by
  cases l with
  | nil => simp
  | cons c cs => simp [List.dropWhile_cons, h c (by simp)]

theorem trimSpace_space_digits (d : List Nat) (hd : ∀ b ∈ d, 48 ≤ b ∧ b ≤ 57) :
    trimSpace (32 :: d) = d := by
  have hdF : ∀ b ∈ d, isSpaceByte b = false := by
    intro b hb
    have := hd b hb
    simp only [isSpaceByte, Bool.or_eq_false_iff, decide_eq_false_iff_not]
    omega
  have h1 : (32 :: d).dropWhile isSpaceByte = d := by
    simp only [List.dropWhile_cons, show isSpaceByte 32 = true by decide, if_true]
    exact dropWhile_eq_self_allF _ _ hdF
  have h2 : d.reverse.dropWhile isSpaceByte = d.reverse :=
    dropWhile_eq_self_allF _ _ (fun b hb => hdF b (List.mem_reverse.mp hb))
  simp [trimSpace, h1, h2]

/-- The `Content-Length` line written by `format` parses back to the body
length. -/
theorem mimeCL_format_line (m : Nat) :
    mimeCL ((strBytes "Content-Length: " ++ natToDigits m ++ [13]) ++ [10]) = .cl m := by
  have hdig := natToDigits_digits m
  have hsplit : strBytes "Content-Length: " = strBytes "Content-Length" ++ [58, 32] := by decide
  have hcontent : stripEol ((strBytes "Content-Length: " ++ natToDigits m ++ [13]) ++ [10]) =
      strBytes "Content-Length" ++ 58 :: 32 :: natToDigits m := by
    have : (strBytes "Content-Length: " ++ natToDigits m ++ [13]) ++ [10] =
        (strBytes "Content-Length: " ++ natToDigits m) ++ [13, 10] := by simp
    rw [this, stripEol_crlf, hsplit]
    simp
  simp only [mimeCL, hcontent]
  rw [if_neg (by simp [strBytes])]
  rw [if_neg (by
    simp only [not_not]
    exact List.mem_append_right _ (by simp))]
  have hkey : (strBytes "Content-Length" ++ 58 :: 32 :: natToDigits m).takeWhile
      (fun b => b ≠ 58) = strBytes "Content-Length" := by
    rw [takeWhile_append_allT _ _ _ (by decide)]
    simp [List.takeWhile_cons]
  have hval : (strBytes "Content-Length" ++ 58 :: 32 :: natToDigits m).dropWhile
      (fun b => b ≠ 58) = 58 :: 32 :: natToDigits m := by
    rw [dropWhile_append_allT _ _ _ (by decide)]
    simp [List.dropWhile_cons]
  rw [hkey, if_pos rfl, hval]
  simp only [List.drop_one, List.tail_cons]
  rw [trimSpace_space_digits _ hdig, digitsToNat_natToDigits]
  rfl

/-- Unfolding of `receive` when the first line carries a Content-Length. -/
theorem receive_cl (input line rest : List Nat) (n : Nat)
    (h1 : readLine input = some (line, rest))
    (h2 : mimeCL line = .cl n) : receive input = handleCL n rest := by
  have hcons : input.length = (input.length - 1) + 1 := by
    cases input with
    | nil => simp [readLine] at h1
    | cons c cs => simp
  rw [receive, hcons, receiveFuel_cl _ _ _ _ _ h1 h2]

/-- What the inbound reader actually yields on the encoder output of the bridge itself:
`receive` consumes the Content-Type line as if it were the blank separator, so
the "body" it reads starts at the blank line and is truncated two bytes early. -/
theorem receive_format_eq (p : List Nat) :
    receive (format p) = .msg ((13 :: 10 :: p).take p.length) := by
  have hpre1 : ∀ b ∈ strBytes "Content-Length: " ++ natToDigits p.length ++ [13], b ≠ 10 := by
    intro b hb
    simp only [List.append_assoc, List.mem_append, List.mem_singleton] at hb
    rcases hb with hb | hb | hb
    · exact (by decide : ∀ b ∈ strBytes "Content-Length: ", b ≠ 10) b hb
    · have := natToDigits_digits p.length b hb
      omega
    · omega
  have h1 : readLine (format p) =
      some ((strBytes "Content-Length: " ++ natToDigits p.length ++ [13]) ++ [10],
            (contentTypeHeader ++ [13]) ++ 10 :: (13 :: 10 :: p)) := by
    have hsplit : format p = (strBytes "Content-Length: " ++ natToDigits p.length ++ [13]) ++
        10 :: ((contentTypeHeader ++ [13]) ++ 10 :: (13 :: 10 :: p)) := by
      simp [format, CRLF]
    rw [hsplit, readLine_append _ _ hpre1]
  rw [receive_cl _ _ _ _ h1 (mimeCL_format_line p.length)]
  have h3 : readLine ((contentTypeHeader ++ [13]) ++ 10 :: (13 :: 10 :: p)) =
      some ((contentTypeHeader ++ [13]) ++ [10], 13 :: 10 :: p) := by
    apply readLine_append
    intro b hb
    simp only [List.mem_append, List.mem_singleton] at hb
    rcases hb with hb | hb
    · exact (by decide : ∀ b ∈ contentTypeHeader, b ≠ 10) b hb
    · omega
  rw [handleCL, h3]
  simp only [List.length_cons]
  rw [if_neg (by omega)]

/-- A frame whose header block is only the `Content-Length` line (what actual
LSP servers send) round-trips byte for byte through `receive`. -/
theorem receive_single_header_eq (p : List Nat) :
    receive (strBytes "Content-Length: " ++ natToDigits p.length ++ CRLF ++ CRLF ++ p) =
      .msg p := by
  have hpre1 : ∀ b ∈ strBytes "Content-Length: " ++ natToDigits p.length ++ [13], b ≠ 10 := by
    intro b hb
    simp only [List.append_assoc, List.mem_append, List.mem_singleton] at hb
    rcases hb with hb | hb | hb
    · exact (by decide : ∀ b ∈ strBytes "Content-Length: ", b ≠ 10) b hb
    · have := natToDigits_digits p.length b hb
      omega
    · omega
  have h1 : readLine (strBytes "Content-Length: " ++ natToDigits p.length ++ CRLF ++ CRLF ++ p) =
      some ((strBytes "Content-Length: " ++ natToDigits p.length ++ [13]) ++ [10],
            13 :: 10 :: p) := by
    have hsplit : strBytes "Content-Length: " ++ natToDigits p.length ++ CRLF ++ CRLF ++ p =
        (strBytes "Content-Length: " ++ natToDigits p.length ++ [13]) ++
          10 :: (13 :: 10 :: p) := by
      simp [CRLF]
    rw [hsplit, readLine_append _ _ hpre1]
  rw [receive_cl _ _ _ _ h1 (mimeCL_format_line p.length)]
  have h3 : readLine (13 :: 10 :: p) = some ([13, 10], p) :=
    readLine_append [13] p (by simp)
  rw [handleCL, h3]
  have hlen : ¬ (13 :: 10 :: p : List Nat).length < p.length := by
    simp only [List.length_cons]
    omega
  simp [hlen]

/-- C3 counterexample: framing the two-byte JSON body `\x7b\x7d` and feeding the
framed bytes back through the inbound reader does NOT return the payload: the
reader consumes the Content-Type header line as the separator and reads the
blank line plus the first 0 bytes of the body instead. -/
theorem framing_roundtrip_counterexample :
    receive (format (strBytes "\x7b\x7d")) = RecvResult.msg [13, 10] ∧
    receive (format (strBytes "\x7b\x7d")) ≠ RecvResult.msg (strBytes "\x7b\x7d") := by
  have h := receive_format_eq (strBytes "\x7b\x7d")
  constructor
  · rw [h]
    decide
  · rw [h]
    decide

/-- C3 amended: decoding the output of the encoder itself yields the first `|P|` bytes
of `CRLF ++ P` (the blank separator line plus all but the last two bytes of the
payload), never `P` itself for a JSON payload; the byte-for-byte round trip
holds instead for frames whose header block consists of only the
`Content-Length` line, which is what the child process actually sends. -/
theorem framing_decode_of_encode (p : List Nat) :
    receive (format p) = RecvResult.msg ((13 :: 10 :: p).take p.length) ∧
    receive (strBytes "Content-Length: " ++ natToDigits p.length ++ CRLF ++ CRLF ++ p) =
      RecvResult.msg p :=
  ⟨receive_format_eq p, receive_single_header_eq p⟩

/-- C7: for every outbound request, a caller-supplied id equal to 0 is written
to the wire as 1, and every strictly positive caller-supplied id is written
unchanged (`request.getBody`, part_000 lines 21-31). -/
theorem id_zero_rewritten_to_one (id : Int) :
    (id = 0 → wireId id = 1) ∧ (0 < id → wireId id = id) := by
  constructor
  · intro h
    subst h
    simp [wireId]
  · intro h
    simp [wireId, h]

theorem id_zero_rewritten_to_one_witness : wireId 0 = 1 ∧ wireId 7 = 7 :=
  ⟨(id_zero_rewritten_to_one 0).1 rfl, (id_zero_rewritten_to_one 7).2 (by decide)⟩

/-! ## Event emitter (src/events/events.go)

Listeners are identified by naturals (Go compares them by function pointer);
a `none` slot is a Go nil listener (the padding `make([]Listener, maxListeners)`
creates, and what a fired `Once` wrapper leaves behind).  A Go nil slice and an
absent map key read back identically, so the listener table is a total function
into lists and the empty list plays both roles. -/

structure Emitter where
  maxListeners : Int
  evtListeners : String → List (Option Nat)

/-- Model of `events.New` (events.go lines 97-100): `DefaultMaxListeners = 0`, empty table. -/
def emitterNew : Emitter := { maxListeners := 0, evtListeners := fun _ => [] }

/-- Model of `emitter.SetMaxListeners` (events.go lines 435-443).  `EnableWarning` is the
constant `false`, so the guarded early `return` for negative `n` is never taken
and the value is stored as-is. -/
def setMaxListeners (e : Emitter) (n : Int) : Emitter := { e with maxListeners := n }

/-- Model of `emitter.AddListener` (events.go lines 112-141): nothing to add is a no-op;
the call is dropped when `maxListeners > 0` and the stored slice length equals
`maxListeners` exactly; on a fresh (nil) topic the slice is pre-allocated as
`make([]Listener, maxListeners)` — `maxListeners` nil entries — before the new
listeners are appended.  (Go `make` would panic on a negative `maxListeners`;
the claims only concern caps `n ≥ 0`.) -/
def addListener (e : Emitter) (evt : String) (ls : List Nat) : Emitter :=
  if ls = [] then e
  else
    let listeners := e.evtListeners evt
    if 0 < e.maxListeners ∧ (listeners.length : Int) = e.maxListeners then e
    else
      let base := if listeners = [] then List.replicate e.maxListeners.toNat none else listeners
      { e with evtListeners := fun t => if t = evt then base ++ ls.map some else e.evtListeners t }

/-- Model of `emitter.ListenerCount` (events.go lines 227-243): nil slots are skipped. -/
def listenerCount (e : Emitter) (evt : String) : Nat :=
  (e.evtListeners evt).countP (fun o => o.isSome)

theorem countP_isSome_replicate_none (k : Nat) :
    (List.replicate k (none : Option Nat)).countP (fun o => o.isSome) = 0 := by
  induction k with
  | zero => simp
  | succ k ih => simp [List.replicate_succ, List.countP_cons, ih]

theorem countP_isSome_map_some (c : List Nat) :
    (c.map some).countP (fun o => o.isSome) = c.length := by
  induction c with
  | nil => simp
  | cons x xs ih => simp [List.countP_cons, ih]

/-- Main inductive fact behind C6: on a topic whose slice is either fresh or of
the shape the first `addListener` leaves behind (nil padding plus a non-empty
tail), the length-equality cap check never fires again, so every non-empty
`addListener` call appends. -/
theorem addListener_foldl_count (evt : String) :
    ∀ (calls : List (List Nat)) (e : Emitter),
      (∀ c ∈ calls, c ≠ []) →
      0 ≤ e.maxListeners →
      (e.evtListeners evt = [] ∨
        ∃ rest, e.evtListeners evt = List.replicate e.maxListeners.toNat none ++ rest ∧
          rest ≠ []) →
      listenerCount (calls.foldl (fun a c => addListener a evt c) e) evt =
        listenerCount e evt + (calls.map List.length).sum := by
  intro calls
  induction calls with
  | nil => intro e _ _ _; simp
  | cons c cs ih =>
    intro e hc hm hshape
    have hcne : c ≠ [] := hc c (by simp)
    have hnodrop : ¬ (0 < e.maxListeners ∧
        ((e.evtListeners evt).length : Int) = e.maxListeners) := by
      rintro ⟨hpos, hlen⟩
      rcases hshape with hempty | ⟨rest, hrest, hrestne⟩
      · rw [hempty] at hlen
        simp only [List.length_nil, Nat.cast_zero] at hlen
        omega
      · rw [hrest] at hlen
        have htn : (e.maxListeners.toNat : Int) = e.maxListeners := Int.toNat_of_nonneg hm
        have hrl : 0 < rest.length := List.length_pos.mpr hrestne
        simp only [List.length_append, List.length_replicate] at hlen
        push_cast at hlen
        omega
    have hstep : addListener e evt c =
        { e with evtListeners := fun t => if t = evt then
            (if e.evtListeners evt = [] then List.replicate e.maxListeners.toNat none
              else e.evtListeners evt) ++ c.map some
          else e.evtListeners t } := by
      rw [addListener, if_neg hcne, if_neg hnodrop]
    have hshape2 : ∃ rest',
        (if e.evtListeners evt = [] then List.replicate e.maxListeners.toNat none
          else e.evtListeners evt) ++ c.map some =
          List.replicate e.maxListeners.toNat none ++ rest' ∧ rest' ≠ [] := by
      rcases hshape with hempty | ⟨rest, hrest, hrestne⟩
      · exact ⟨c.map some, by rw [if_pos hempty], by simpa using hcne⟩
      · refine ⟨rest ++ c.map some, ?_, by simp [hrestne]⟩
        rw [if_neg (by rw [hrest]; simp [hrestne]), hrest, List.append_assoc]
    set e' : Emitter :=
      { e with evtListeners := fun t => if t = evt then
          (if e.evtListeners evt = [] then List.replicate e.maxListeners.toNat none
            else e.evtListeners evt) ++ c.map some
        else e.evtListeners t } with he'
    have he'evt : e'.evtListeners evt =
        (if e.evtListeners evt = [] then List.replicate e.maxListeners.toNat none
          else e.evtListeners evt) ++ c.map some := by
      rw [he']
      simp
    have he'max : e'.maxListeners = e.maxListeners := rfl
    have happ := ih e' (fun d hd => hc d (by simp [hd])) (by rw [he'max]; exact hm)
      (Or.inr (by rw [he'evt, he'max]; exact hshape2))
    rw [List.foldl_cons, hstep, happ]
    have hcount : listenerCount e' evt = listenerCount e evt + c.length := by
      rw [listenerCount, he'evt, List.countP_append, countP_isSome_map_some]
      congr 1
      split
      · next hempty => rw [countP_isSome_replicate_none, listenerCount, hempty]; simp
      · rfl
    rw [hcount]
    simp only [List.map_cons, List.sum_cons]
    omega

/-- C6 counterexample: with `maxListeners = 1`, two successive `addListener`
calls on the same fresh topic both append.  The first call pads the slice with
one nil entry before appending, so the second sees slice length 2 ≠ 1 and is
not dropped: the listener count of the topic reaches 2, exceeding the cap n = 1. -/
theorem addListener_cap_counterexample :
    listenerCount
      (addListener (addListener (setMaxListeners emitterNew 1) "topic" [0]) "topic" [1])
      "topic" = 2 ∧
    1 < listenerCount
      (addListener (addListener (setMaxListeners emitterNew 1) "topic" [0]) "topic" [1])
      "topic" := by
  constructor <;> decide

/-- C6 amended: the cap check compares the stored slice length (including the
nil padding that the first `addListener` on a fresh topic creates) to
`maxListeners` with equality.  On a topic populated only through `addListener`,
the first call makes the stored length `n + k > n`, so no later call is ever
dropped: for every cap `n ≥ 0` (including the `n = 0` "disabled" case), every
non-empty `addListener` call appends and the listener count equals the total
number of listeners added. -/
theorem addListener_cap_amended (m : Int) (evt : String) (calls : List (List Nat))
    (hm : 0 ≤ m) (hc : ∀ c ∈ calls, c ≠ []) :
    listenerCount (calls.foldl (fun a c => addListener a evt c) (setMaxListeners emitterNew m))
      evt = (calls.map List.length).sum := by
  have h := addListener_foldl_count evt calls (setMaxListeners emitterNew m) hc hm (Or.inl rfl)
  rw [h]
  simp [listenerCount, setMaxListeners, emitterNew]

theorem addListener_cap_amended_witness :
    listenerCount
      (([[0], [1], [2]] : List (List Nat)).foldl
        (fun a c => addListener a "topic2" c) (setMaxListeners emitterNew 2)) "topic2" = 3 := by
  have h := addListener_cap_amended 2 "topic2" [[0], [1], [2]] (by decide) (by decide)
  rw [h]
  decide

/-! ## Request id allocation (src/unnamed/part_000 lines 452-460, src/server.go lines 84-95)

`mateServer.request` allocates under the session lock —
`s.Lock(); s.requestID++; reqID := s.requestID; s.Unlock()` — and only THEN
calls `s.client.request(reqID, …)`, which takes the client mutex and writes the
framed bytes.  The session lock is NOT held across the write, so one in-flight
HTTP worker is two separate atomic steps: allocate an id, then put the frame on
the wire.  A schedule is the interleaving of those steps across workers;
`startServer` initializes `requestID` to 1. -/

inductive ReqPhase where
  | start : ReqPhase
  | allocated (id : Nat) : ReqPhase
  | finished (id : Nat) : ReqPhase
deriving DecidableEq

def phId : ReqPhase → Option Nat
  | .start => none
  | .allocated i => some i
  | .finished i => some i

structure AllocState where
  requestID : Nat
  threads : List ReqPhase
  /-- ids in the order the frames reach the child -/
  wire : List Nat
  /-- ids in allocation order -/
  allocLog : List Nat
deriving DecidableEq

def allocInit (n : Nat) : AllocState :=
  { requestID := 1, threads := List.replicate n .start, wire := [], allocLog := [] }

/-- One atomic step of worker `t`: its lock-protected id allocation if it has
not allocated yet, otherwise its (client-mutex-protected) wire write; finished
workers and out-of-range indices do nothing. -/
def allocStep (st : AllocState) (t : Nat) : AllocState :=
  match st.threads.get? t with
  | none => st
  | some .start =>
    { st with requestID := st.requestID + 1,
              threads := st.threads.set t (.allocated (st.requestID + 1)),
              allocLog := st.allocLog ++ [st.requestID + 1] }
  | some (.allocated i) =>
    { st with threads := st.threads.set t (.finished i), wire := st.wire ++ [i] }
  | some (.finished _) => st

def allocRun (n : Nat) (sched : List Nat) : AllocState :=
  sched.foldl allocStep (allocInit n)

structure AllocInv (st : AllocState) : Prop where
  bound : ∀ t ph, st.threads.get? t = some ph → ∀ i, phId ph = some i →
    2 ≤ i ∧ i ≤ st.requestID
  distinct : ∀ t1 t2 ph1 ph2 i1 i2, t1 ≠ t2 → st.threads.get? t1 = some ph1 →
    st.threads.get? t2 = some ph2 → phId ph1 = some i1 → phId ph2 = some i2 → i1 ≠ i2
  wireDone : ∀ i ∈ st.wire, ∃ t, st.threads.get? t = some (.finished i)
  wireNodup : st.wire.Nodup
  ridLB : 1 ≤ st.requestID
  logSorted : st.allocLog.Pairwise (· < ·)
  logBound : ∀ i ∈ st.allocLog, i ≤ st.requestID

theorem allocInv_init (n : Nat) : AllocInv (allocInit n) := by
  constructor
  · intro t ph hget i hid
    have hph : ph = .start := List.eq_of_mem_replicate (List.get?_mem hget)
    subst hph
    simp [phId] at hid
  · intro t1 t2 ph1 ph2 i1 i2 _ hg1 _ hid1 _
    have hph : ph1 = .start := List.eq_of_mem_replicate (List.get?_mem hg1)
    subst hph
    simp [phId] at hid1
  · intro i hi
    simp [allocInit] at hi
  · simp [allocInit]
  · simp [allocInit]
  · simp [allocInit]
  · intro i hi
    simp [allocInit] at hi

theorem allocInv_step (st : AllocState) (t : Nat) (h : AllocInv st) :
    AllocInv (allocStep st t) := by
  cases hget : st.threads.get? t with
  | none =>
    rw [allocStep, hget]
    exact h
  | some ph =>
    have htlt : t < st.threads.length := (List.get?_eq_some.mp hget).1
    cases ph with
    | start =>
      have hred : allocStep st t =
          { st with requestID := st.requestID + 1,
                    threads := st.threads.set t (.allocated (st.requestID + 1)),
                    allocLog := st.allocLog ++ [st.requestID + 1] } := by
        rw [allocStep, hget]
      rw [hred]
      constructor
      · intro t' ph' hg' i hid
        simp only [] at hg' ⊢
        by_cases ht' : t = t'
        · subst ht'
          rw [List.get?_set_eq_of_lt _ htlt] at hg'
          cases hg'
          simp only [phId, Option.some.injEq] at hid
          have := h.ridLB
          omega
        · rw [List.get?_set_ne _ _ ht'] at hg'
          have := h.bound t' ph' hg' i hid
          omega
      · intro t1 t2 ph1 ph2 i1 i2 hne hg1 hg2 hid1 hid2
        simp only [] at hg1 hg2
        by_cases h1 : t = t1
        · subst h1
          rw [List.get?_set_eq_of_lt _ htlt] at hg1
          cases hg1
          simp only [phId, Option.some.injEq] at hid1
          rw [List.get?_set_ne _ _ hne] at hg2
          have := h.bound t2 ph2 hg2 i2 hid2
          omega
        · by_cases h2 : t = t2
          · subst h2
            rw [List.get?_set_eq_of_lt _ htlt] at hg2
            cases hg2
            simp only [phId, Option.some.injEq] at hid2
            rw [List.get?_set_ne _ _ h1] at hg1
            have := h.bound t1 ph1 hg1 i1 hid1
            omega
          · rw [List.get?_set_ne _ _ h1] at hg1
            rw [List.get?_set_ne _ _ h2] at hg2
            exact h.distinct t1 t2 ph1 ph2 i1 i2 hne hg1 hg2 hid1 hid2
      · intro i hi
        simp only [] at hi ⊢
        obtain ⟨t', ht'⟩ := h.wireDone i hi
        refine ⟨t', ?_⟩
        have hne : t ≠ t' := by
          intro habs
          subst habs
          rw [hget] at ht'
          cases ht'
        rw [List.get?_set_ne _ _ hne]
        exact ht'
      · exact h.wireNodup
      · simp only []
        have := h.ridLB
        omega
      · simp only []
        rw [List.pairwise_append]
        refine ⟨h.logSorted, List.pairwise_singleton _ _, ?_⟩
        intro a ha b hb
        have := h.logBound a ha
        simp only [List.mem_singleton] at hb
        omega
      · intro i hi
        simp only [] at hi ⊢
        rw [List.mem_append] at hi
        rcases hi with hi | hi
        · have := h.logBound i hi
          omega
        · simp only [List.mem_singleton] at hi
          omega
    | allocated id0 =>
      have hred : allocStep st t =
          { st with threads := st.threads.set t (.finished id0),
                    wire := st.wire ++ [id0] } := by
        rw [allocStep, hget]
      rw [hred]
      constructor
      · intro t' ph' hg' i hid
        simp only [] at hg' ⊢
        by_cases ht' : t = t'
        · subst ht'
          rw [List.get?_set_eq_of_lt _ htlt] at hg'
          cases hg'
          simp only [phId, Option.some.injEq] at hid
          subst hid
          exact h.bound t _ hget id0 rfl
        · rw [List.get?_set_ne _ _ ht'] at hg'
          exact h.bound t' ph' hg' i hid
      · intro t1 t2 ph1 ph2 i1 i2 hne hg1 hg2 hid1 hid2
        simp only [] at hg1 hg2
        by_cases h1 : t = t1
        · subst h1
          rw [List.get?_set_eq_of_lt _ htlt] at hg1
          cases hg1
          simp only [phId, Option.some.injEq] at hid1
          subst hid1
          rw [List.get?_set_ne _ _ hne] at hg2
          exact h.distinct t t2 _ ph2 id0 i2 hne hget hg2 rfl hid2
        · by_cases h2 : t = t2
          · subst h2
            rw [List.get?_set_eq_of_lt _ htlt] at hg2
            cases hg2
            simp only [phId, Option.some.injEq] at hid2
            subst hid2
            rw [List.get?_set_ne _ _ h1] at hg1
            exact h.distinct t1 t ph1 _ i1 id0 (fun hx => h1 hx.symm) hg1 hget hid1 rfl
          · rw [List.get?_set_ne _ _ h1] at hg1
            rw [List.get?_set_ne _ _ h2] at hg2
            exact h.distinct t1 t2 ph1 ph2 i1 i2 hne hg1 hg2 hid1 hid2
      · intro i hi
        simp only [] at hi ⊢
        rw [List.mem_append] at hi
        rcases hi with hi | hi
        · obtain ⟨t', ht'⟩ := h.wireDone i hi
          have hne : t ≠ t' := by
            intro habs
            subst habs
            rw [hget] at ht'
            cases ht'
          exact ⟨t', by rw [List.get?_set_ne _ _ hne]; exact ht'⟩
        · simp only [List.mem_singleton] at hi
          subst hi
          exact ⟨t, by rw [List.get?_set_eq_of_lt _ htlt]⟩
      · simp only []
        have hnotmem : id0 ∉ st.wire := by
          intro habs
          obtain ⟨t', ht'⟩ := h.wireDone id0 habs
          have hne : t ≠ t' := by
            intro hx
            subst hx
            rw [hget] at ht'
            cases ht'
          exact h.distinct t t' _ _ id0 id0 hne hget ht' rfl rfl rfl
        simpa [List.nodup_append] using ⟨h.wireNodup, hnotmem⟩
      · exact h.ridLB
      · exact h.logSorted
      · exact h.logBound
    | finished id0 =>
      have hred : allocStep st t = st := by
        rw [allocStep, hget]
      rw [hred]
      exact h

theorem allocInv_run (n : Nat) (sched : List Nat) : AllocInv (allocRun n sched) := by
  rw [allocRun]
  induction sched using List.reverseRecOn with
  | nil => exact allocInv_init n
  | append_singleton sched t ih =>
    rw [List.foldl_append, List.foldl_cons, List.foldl_nil]
    exact allocInv_step _ t ih

/-- C1 counterexample: two concurrent `request` calls, scheduled as
allocate(worker 0), allocate(worker 1), write(worker 1), write(worker 0),
put ids 3 then 2 on the wire — the wire sequence is not increasing, because the
session lock is released before the write.  (Ids are still distinct and
nonzero.) -/
theorem wire_order_counterexample :
    (allocRun 2 [0, 1, 1, 0]).wire = [3, 2] ∧
    ¬ (allocRun 2 [0, 1, 1, 0]).wire.Pairwise (· < ·) := by
  constructor <;> decide

/-- C1 amended: across any concurrent mix of `request` calls (any number of
workers, any interleaving of the allocate and write steps), the ids on the wire
are pairwise distinct and all at least 2 — no id is ever reused and no id on
the wire is 0 — and the ids in ALLOCATION order are strictly increasing; but
the wire order itself need not be increasing, since the write happens after
the session lock is released. -/
theorem wire_ids_distinct_nonzero (n : Nat) (sched : List Nat) :
    (allocRun n sched).wire.Nodup ∧
    (∀ i ∈ (allocRun n sched).wire, 2 ≤ i) ∧
    (allocRun n sched).allocLog.Pairwise (· < ·) := by
  have h := allocInv_run n sched
  refine ⟨h.wireNodup, ?_, h.logSorted⟩
  intro i hi
  obtain ⟨t, ht⟩ := h.wireDone i hi
  exact (h.bound t _ ht i rfl).1

theorem wire_ids_distinct_nonzero_witness :
    (allocRun 2 [0, 1, 1, 0]).wire.Nodup ∧ 2 ≤ 3 :=
  ⟨(wire_ids_distinct_nonzero 2 [0, 1, 1, 0]).1,
   (wire_ids_distinct_nonzero 2 [0, 1, 1, 0]).2.1 3 (by decide)⟩

/-! ## The wait primitive (src/unnamed/part_000, lines 468-488)

`mateServer.wait(event, cb)` arms a 2-second timer and registers a `Once`
listener that stops the timer, signals a local unbuffered `canceled` channel,
and only then sends the payload to `cb`; the body selects between the timer
channel and `canceled`; on timer fire it sends a timeout error to `cb`, stops
the timer and removes all listeners on the topic.  We model one wait in
isolation as interleavings of the atomic suspension-point steps of the three
parties (the emitting dispatch loop, the spawned listener goroutine, the
waiting body).  `Emit` spawns the listener only if it is still registered
(after the timeout branch ran `RemoveAllListeners`, a late emit finds no
listener), and the `Once` wrapper unregisters itself before the body runs. -/

structure WaitState where
  /-- whether the event of the topic has been emitted -/
  emitted : Bool
  /-- listener goroutine: 0 not spawned, 1 about to stop the timer, 2 ready to
  signal `canceled`, 3 ready to send the payload on `cb`, 4 finished -/
  listenerPC : Nat
  timerStopped : Bool
  timerFired : Bool
  /-- wait body: 0 blocked in the select, 1 took the timer branch (done),
  2 took the canceled branch (done) -/
  waitPC : Nat
  /-- listeners currently registered on the topic (1 right after the `Once`) -/
  listeners : Nat
  /-- values delivered on `cb` so far: `true` = payload, `false` = timeout -/
  cbGot : List Bool
deriving DecidableEq

def waitInit : WaitState :=
  { emitted := false, listenerPC := 0, timerStopped := false, timerFired := false,
    waitPC := 0, listeners := 1, cbGot := [] }

inductive WaitAct where
  | emit | timerFire | listenerStopTimer | syncCanceled | listenerSendCb | selectTimeout
deriving DecidableEq, Fintype

def waitStep (s : WaitState) : WaitAct → WaitState
  | .emit =>
    if s.emitted then s
    else if 0 < s.listeners then
      { s with emitted := true, listenerPC := 1, listeners := s.listeners - 1 }
    else { s with emitted := true }
  | .timerFire =>
    if ¬s.timerStopped ∧ ¬s.timerFired then { s with timerFired := true } else s
  | .listenerStopTimer =>
    if s.listenerPC = 1 then { s with timerStopped := true, listenerPC := 2 } else s
  | .syncCanceled =>
    if s.listenerPC = 2 ∧ s.waitPC = 0 then { s with listenerPC := 3, waitPC := 2 } else s
  | .listenerSendCb =>
    if s.listenerPC = 3 then { s with cbGot := s.cbGot ++ [true], listenerPC := 4 } else s
  | .selectTimeout =>
    if s.timerFired ∧ s.waitPC = 0 then
      { s with waitPC := 1, cbGot := s.cbGot ++ [false], timerStopped := true,
               listeners := 0 }
    else s

def waitRun (acts : List WaitAct) : WaitState := acts.foldl waitStep waitInit

structure WaitInv (s : WaitState) : Prop where
  wpc : s.waitPC ≤ 2
  lpc : s.listenerPC ≤ 4
  spawned : 1 ≤ s.listenerPC → s.emitted = true
  sync23 : s.waitPC = 2 ↔ 3 ≤ s.listenerPC
  cb : s.cbGot = (if s.waitPC = 1 then [false] else []) ++
    (if s.listenerPC = 4 then [true] else [])
  timeoutCleared : s.waitPC = 1 → s.listeners = 0
  timeoutLPC : s.waitPC = 1 → s.listenerPC ≤ 2
  stopped : s.timerStopped = true → 2 ≤ s.listenerPC ∨ s.waitPC = 1

theorem waitInv_init : WaitInv waitInit := by
  constructor <;> simp [waitInit]

theorem waitInv_step (s : WaitState) (a : WaitAct) (h : WaitInv s) :
    WaitInv (waitStep s a) := by
  obtain ⟨w1, w2, w3, w4, w5, w6, w7, w8⟩ := h
  cases a
  case selectTimeout =>
    simp only [waitStep]
    split_ifs with hcond
    · obtain ⟨hf, h0⟩ := hcond
      have hlpc3 : ¬ 3 ≤ s.listenerPC := fun hge => by
        have := w4.mpr hge
        omega
      have hlpcne4 : s.listenerPC ≠ 4 := by omega
      have hcb : s.cbGot = [] := by
        rw [w5, if_neg (by omega), if_neg hlpcne4]
        rfl
      constructor <;> simp_all <;> omega
    · exact ⟨w1, w2, w3, w4, w5, w6, w7, w8⟩
  all_goals
    simp only [waitStep] <;> split_ifs <;> constructor <;> simp_all <;> omega

theorem waitInv_run (acts : List WaitAct) : WaitInv (waitRun acts) := by
  rw [waitRun]
  induction acts using List.reverseRecOn with
  | nil => exact waitInv_init
  | append_singleton acts a ih =>
    rw [List.foldl_append, List.foldl_cons, List.foldl_nil]
    exact waitInv_step _ a ih

/-- C2: in every interleaving of one `wait`, the channel of the caller gets at most
one value; when the timer branch ran, that value is the timeout error and the
listeners of the topic have all been removed; when the listener finished, it is the
event payload; and in every completed (maximal) interleaving exactly one value
is delivered — never both. -/
theorem wait_exactly_one_delivery (acts : List WaitAct) :
    (waitRun acts).cbGot.length ≤ 1 ∧
    ((waitRun acts).waitPC = 1 →
      (waitRun acts).cbGot = [false] ∧ (waitRun acts).listeners = 0) ∧
    ((waitRun acts).listenerPC = 4 → (waitRun acts).cbGot = [true]) ∧
    ((∀ a, waitStep (waitRun acts) a = waitRun acts) →
      (waitRun acts).cbGot.length = 1) := by
  have h := waitInv_run acts
  set s := waitRun acts with hs
  have hto : s.waitPC = 1 → s.cbGot = [false] ∧ s.listeners = 0 := by
    intro h1
    have hlpc := h.timeoutLPC h1
    refine ⟨?_, h.timeoutCleared h1⟩
    rw [h.cb, if_pos h1, if_neg (by omega)]
    rfl
  have hpay : s.listenerPC = 4 → s.cbGot = [true] := by
    intro h4
    have h2 : s.waitPC = 2 := h.sync23.mpr (by omega)
    rw [h.cb, if_neg (by omega), if_pos h4]
    rfl
  refine ⟨?_, hto, hpay, ?_⟩
  · rw [h.cb]
    split_ifs with h1 h2
    · have := h.timeoutLPC h1
      omega
    all_goals simp
  · intro hmax
    have hwpc0 : s.waitPC ≠ 0 := by
      intro h0
      by_cases hf : s.timerFired
      · have heq := hmax .selectTimeout
        rw [waitStep, if_pos ⟨hf, h0⟩] at heq
        have := congrArg WaitState.waitPC heq
        simp only [] at this
        omega
      · by_cases hstp : s.timerStopped
        · have hlpc2 : s.listenerPC = 2 := by
            rcases h.stopped hstp with h2 | h1
            · have h3 : ¬ 3 ≤ s.listenerPC := fun hge => by
                have := h.sync23.mpr hge
                omega
              omega
            · omega
          have heq := hmax .syncCanceled
          rw [waitStep, if_pos ⟨hlpc2, h0⟩] at heq
          have := congrArg WaitState.waitPC heq
          simp only [] at this
          omega
        · have heq := hmax .timerFire
          rw [waitStep, if_pos ⟨by simpa using hstp, by simpa using hf⟩] at heq
          have := congrArg WaitState.timerFired heq
          simp only [] at this
          simp [hf] at this
    have hwpc := h.wpc
    have h12 : s.waitPC = 1 ∨ s.waitPC = 2 := by omega
    rcases h12 with h1 | h2
    · rw [(hto h1).1]
      rfl
    · have hge : 3 ≤ s.listenerPC := h.sync23.mp h2
      have hle := h.lpc
      have hlpc4 : s.listenerPC = 4 := by
        by_contra hne
        have hlpc3 : s.listenerPC = 3 := by omega
        have heq := hmax .listenerSendCb
        rw [waitStep, if_pos hlpc3] at heq
        have := congrArg WaitState.listenerPC heq
        simp only [] at this
        omega
      rw [hpay hlpc4]
      rfl

theorem wait_exactly_one_delivery_witness :
    (waitRun [.emit, .listenerStopTimer, .syncCanceled, .listenerSendCb]).cbGot.length = 1 :=
  (wait_exactly_one_delivery
    [.emit, .listenerStopTimer, .syncCanceled, .listenerSendCb]).2.2.2 (by decide)

/-! ## Child-process supervision (src/unnamed/part_002, lines 43-81)

`connectToServer` starts the child and a waiter goroutine around `cmd.Wait()`.
The waiter body runs only when `Wait` returns a non-nil error (abnormal exit):
it increments `crashesCount`, calls `checkError(err)` when the count reaches
exactly 10, and otherwise re-spawns the child and pushes the synthetic
`restart` message on `responseChan`.  A clean exit (`Wait` returns nil) does
nothing at all.  `checkError` is declared outside src/; modelled from the
spec: on a non-nil error it fails the whole process ("If it reaches the hard
cap (10), fail the whole process"). -/

inductive ExitKind where
  /-- the case where `cmd.Wait()` returned nil (exit status 0) -/
  | clean : ExitKind
  /-- the case where `cmd.Wait()` returned a non-nil error -/
  | crash : ExitKind
deriving DecidableEq

inductive SupAction where
  /-- the `if err != nil` body is skipped entirely -/
  | ignore : SupAction
  /-- the case where `checkError(err)` terminates the whole process -/
  | fatal : SupAction
  /-- re-spawn the child and push the synthetic restart message -/
  | respawnAndNotify (crashes : Nat) : SupAction
deriving DecidableEq

/-- The waiter goroutine body (part_002 lines 62-72) for one child exit, given
the current `crashesCount`. -/
def onChildExit (crashes : Nat) (k : ExitKind) : SupAction :=
  match k with
  | .clean => .ignore
  | .crash =>
    let c := crashes + 1
    if c = 10 then .fatal else .respawnAndNotify c

structure SupState where
  crashes : Nat
  respawns : Nat
  failed : Bool
deriving DecidableEq

def supStep (s : SupState) (k : ExitKind) : SupState :=
  if s.failed then s
  else match onChildExit s.crashes k with
    | .ignore => s
    | .fatal => { s with crashes := s.crashes + 1, failed := true }
    | .respawnAndNotify c => { s with crashes := c, respawns := s.respawns + 1 }

def supRun (exits : List ExitKind) : SupState :=
  exits.foldl supStep { crashes := 0, respawns := 0, failed := false }

def SupInv (s : SupState) : Prop :=
  (s.failed = false → s.respawns = s.crashes ∧ s.crashes ≤ 9) ∧
  (s.failed = true → s.respawns ≤ 9)

theorem supInv_step (s : SupState) (k : ExitKind) (h : SupInv s) : SupInv (supStep s k) := by
  obtain ⟨hok, hfail⟩ := h
  rw [supStep]
  split_ifs with hf
  · exact ⟨hok, hfail⟩
  · have hs := hok (by simpa using hf)
    cases k with
    | clean =>
      simp only [onChildExit]
      exact ⟨hok, hfail⟩
    | crash =>
      simp only [onChildExit]
      split_ifs with hten
    <;> constructor <;> intro hx <;> simp_all <;> omega

theorem supInv_run (exits : List ExitKind) : SupInv (supRun exits) := by
  rw [supRun]
  induction exits using List.reverseRecOn with
  | nil =>
    simp only [List.foldl_nil]
    exact ⟨fun _ => ⟨rfl, by simp⟩, by simp⟩
  | append_singleton exits k ih =>
    rw [List.foldl_append, List.foldl_cons, List.foldl_nil]
    exact supInv_step _ k ih

/-- C5 counterexample: on the very first child exit, with exit status 0
(`cmd.Wait()` returns nil), the supervisor neither re-spawns the child nor
fails the process — the `if err != nil` body is skipped — contradicting the
claim that every exit below the crash cap leads to a re-spawn. -/
theorem clean_exit_not_respawned :
    onChildExit 0 ExitKind.clean = SupAction.ignore ∧
    onChildExit 0 ExitKind.clean ≠ SupAction.respawnAndNotify 1 ∧
    onChildExit 0 ExitKind.clean ≠ SupAction.fatal := by
  refine ⟨rfl, ?_, ?_⟩ <;> decide

/-- C5 amended: for every child exit that `cmd.Wait` reports as an error (a
crash), the supervisor re-spawns the child and pushes the synthetic restart
message, except that when the crash counter reaches exactly 10 the whole
process fails instead; clean exits are ignored entirely; consequently the child
is re-spawned at most 9 times over the life of the process. -/
theorem crash_respawn_bounded (n : Nat) (k : ExitKind) (exits : List ExitKind) :
    (k = .crash → n + 1 ≠ 10 → onChildExit n k = .respawnAndNotify (n + 1)) ∧
    (k = .crash → n + 1 = 10 → onChildExit n k = .fatal) ∧
    (k = .clean → onChildExit n k = .ignore) ∧
    (supRun exits).respawns ≤ 9 := by
  refine ⟨?_, ?_, ?_, ?_⟩
  · intro hk hne
    subst hk
    simp [onChildExit, hne]
  · intro hk hten
    subst hk
    simp [onChildExit, hten]
  · intro hk
    subst hk
    rfl
  · have h := supInv_run exits
    obtain ⟨hok, hfail⟩ := h
    cases hf : (supRun exits).failed with
    | false => have := hok hf; omega
    | true => exact hfail hf

theorem crash_respawn_bounded_witness :
    onChildExit 3 ExitKind.crash = SupAction.respawnAndNotify 4 :=
  (crash_respawn_bounded 3 ExitKind.crash []).1 rfl (by decide)

/-! ## Session manager state and HTTP handlers (src/unnamed/part_000, lines 490-615)

`mateServer` state: `openFiles map[string]time.Time` (times abstracted to
naturals), `requestID int`, and the boolean field spelled `initialized` in Go,
modelled here as `inited`.  Handlers return the new session, the ordered list
of messages handed to the LSP client, and the value delivered on the result
channel.  JSON decoding of the HTTP body is assumed successful (decode errors
are a separate early-return the claims do not touch). -/

structure Session where
  openFiles : String → Option Nat
  requestID : Int
  inited : Bool

inductive OutMsg where
  /-- an outbound `client.request(id, method, ...)` -/
  | request (id : Int) (method : String)
  /-- an outbound `client.notification(method, ...)`; `uri` is the document involved, or ""
  for parameter-less notifications -/
  | notify (method : String) (uri : String)
  /-- the `time.Sleep` between didClose and didOpen on re-open -/
  | sleepMs (ms : Nat)
  /-- a `go s.request(method, ...)` call: a request spawned fire-and-forget; its body
  re-acquires the session lock, so it runs only after the handler returns -/
  | spawnRequest (method : String)
deriving DecidableEq

inductive CallResult where
  /-- the JSON reply with result ok -/
  | ok : CallResult
  /-- the JSON reply with result ok and message "already initialized" -/
  | okAlreadyInited : CallResult
  /-- the JSON error reply with message "Invalid document uri" -/
  | invalidUri : CallResult
  /-- the handler tail-calls `wait(topic, cb)`; the eventual reply is the
  payload or timeout error modelled by `waitRun` -/
  | waitingDiagnostics (topic : String) : CallResult
deriving DecidableEq

/-- Model of `onDidClose` (part_000 lines 557-575): reject an empty uri, otherwise send
`textDocument/didClose`, delete the entry, reply ok. -/
def onDidClose (s : Session) (uri : String) : Session × List OutMsg × CallResult :=
  if uri = "" then (s, [], .invalidUri)
  else
    ({ s with openFiles := fun u => if u = uri then none else s.openFiles u },
     [.notify "textDocument/didClose" uri], .ok)

/-- Model of `onDidOpen` (part_000 lines 527-555): reject an empty uri; spawn the
fire-and-forget `textDocument/documentSymbol` request; when the uri is already
open, send `didClose` and sleep 100 ms; record the fresh timestamp; send
`didOpen`; then wait on `diagnostics.<uri>`. -/
def onDidOpen (s : Session) (uri : String) (now : Nat) :
    Session × List OutMsg × CallResult :=
  if uri = "" then (s, [], .invalidUri)
  else
    let pre := [OutMsg.spawnRequest "textDocument/documentSymbol"] ++
      (if (s.openFiles uri).isSome then
        [OutMsg.notify "textDocument/didClose" uri, OutMsg.sleepMs 100]
      else [])
    ({ s with openFiles := fun u => if u = uri then some now else s.openFiles u },
     pre ++ [OutMsg.notify "textDocument/didOpen" uri],
     .waitingDiagnostics ("diagnostics." ++ uri))

/-- Model of `mateServer.initialize` (part_000 lines 803-908): returns the error
"Empty dir" BEFORE anything is sent when the `dir` parameter is missing or
empty (`params.string("dir", "")`); otherwise the LSP initialize request is
written with the fixed id 1. -/
def initCall (dir : Option String) : Except String (List OutMsg) :=
  if dir.getD "" = "" then .error "Empty dir"
  else .ok [.request 1 "initialize"]

/-- Model of `onInitialize` (part_000 lines 577-615), modelled as `onInitReq`.
`evtObserved` says whether the local `initialized` event fires within the 10 s
timer.  The error returned by the inner initialize is DISCARDED (line 592:
`s.initialize(params)` with no assignment).  On timeout the handler force-sets
the flag, sends the `initialized` notification and
`workspace/didChangeConfiguration` itself, and replies ok; when the event is
observed, the listener sets the flag and replies ok. -/
def onInitReq (s : Session) (dir : Option String) (evtObserved : Bool) :
    Session × List OutMsg × CallResult :=
  if s.inited then (s, [], .okAlreadyInited)
  else
    let sent := match initCall dir with
      | .error _ => []
      | .ok msgs => msgs
    if evtObserved then
      ({ s with inited := true }, sent, .ok)
    else
      ({ s with inited := true },
       sent ++ [.notify "initialized" "", .notify "workspace/didChangeConfiguration" ""],
       .ok)

/-- C8: a `didOpen` call for a uri already present in `openFiles` emits, in
order, the outbound `textDocument/didClose` for that uri, the settling sleep,
then the outbound `textDocument/didOpen` (after the fire-and-forget
documentSymbol spawn), and afterwards `openFiles[uri]` holds the fresh
timestamp. -/
theorem didOpen_reopen_sequence (s : Session) (uri : String) (now t0 : Nat)
    (hne : uri ≠ "") (hopen : s.openFiles uri = some t0) :
    (onDidOpen s uri now).2.1 =
      [.spawnRequest "textDocument/documentSymbol",
       .notify "textDocument/didClose" uri, .sleepMs 100,
       .notify "textDocument/didOpen" uri] ∧
    (onDidOpen s uri now).1.openFiles uri = some now ∧
    (onDidOpen s uri now).2.2 = .waitingDiagnostics ("diagnostics." ++ uri) := by
  rw [onDidOpen, if_neg hne]
  refine ⟨?_, ?_, rfl⟩
  · simp [hopen]
  · simp

theorem didOpen_reopen_sequence_witness :
    (onDidOpen
      { openFiles := fun u => if u = "file:///a.php" then some 5 else none,
        requestID := 1, inited := true } "file:///a.php" 42).1.openFiles "file:///a.php" =
      some 42 :=
  (didOpen_reopen_sequence
    { openFiles := fun u => if u = "file:///a.php" then some 5 else none,
      requestID := 1, inited := true } "file:///a.php" 42 5 (by decide) (by simp)).2.1

/-- C9: a `didClose` call with a non-empty uri that is NOT in `openFiles`
leaves the whole session state unchanged (`openFiles`, `requestID`, the
init flag), still sends the `textDocument/didClose` notification, and replies
ok. -/
theorem didClose_absent_noop (s : Session) (uri : String)
    (hne : uri ≠ "") (habs : s.openFiles uri = none) :
    onDidClose s uri = (s, [.notify "textDocument/didClose" uri], .ok) := by
  rw [onDidClose, if_neg hne]
  have hfun : (fun u => if u = uri then none else s.openFiles u) = s.openFiles := by
    funext u
    split_ifs with h
    · rw [h, habs]
    · rfl
  rw [hfun]

theorem didClose_absent_noop_witness :
    onDidClose { openFiles := fun _ => none, requestID := 7, inited := true } "file:///b.php"
      = ({ openFiles := fun _ => none, requestID := 7, inited := true },
         [.notify "textDocument/didClose" "file:///b.php"], .ok) :=
  didClose_absent_noop
    { openFiles := fun _ => none, requestID := 7, inited := true }
    "file:///b.php" (by decide) rfl

/-- C4: an `initialize` call on a not-yet-initialized session with no
`initialized` event observed inside the 10 s window replies ok, force-sets the
init flag, and its outbound messages end with the `initialized` notification
followed by `workspace/didChangeConfiguration`; any subsequent `initialize`
call replies ok with "already initialized" and changes nothing. -/
theorem onInitReq_already (s' : Session) (d : Option String) (e : Bool)
    (h : s'.inited = true) : onInitReq s' d e = (s', [], .okAlreadyInited) := by
  rw [onInitReq, if_pos h]

theorem init_timeout_forced (s : Session) (dir dir' : Option String) (evt' : Bool)
    (hni : s.inited = false) :
    (onInitReq s dir false).2.2 = .ok ∧
    (onInitReq s dir false).1.inited = true ∧
    List.IsSuffix
      [.notify "initialized" "", .notify "workspace/didChangeConfiguration" ""]
      (onInitReq s dir false).2.1 ∧
    onInitReq (onInitReq s dir false).1 dir' evt' =
      ((onInitReq s dir false).1, [], .okAlreadyInited) := by
  have hno : ¬ s.inited = true := by simp [hni]
  have h1 : (onInitReq s dir false).1.inited = true := by
    rw [onInitReq, if_neg hno]
    simp
  refine ⟨?_, h1, ?_, onInitReq_already _ dir' evt' h1⟩
  · rw [onInitReq, if_neg hno]
    simp
  · rw [onInitReq, if_neg hno]
    simp only [if_neg Bool.false_ne_true]
    exact List.suffix_append _ _

theorem init_timeout_forced_witness :
    (onInitReq { openFiles := fun _ => none, requestID := 1, inited := false }
      (some "/proj") false).2.2 = CallResult.ok :=
  (init_timeout_forced { openFiles := fun _ => none, requestID := 1, inited := false }
    (some "/proj") none true rfl).1

/-- C10: when the `dir` parameter is missing or empty, the inner initialize
returns the "Empty dir" error without emitting any LSP request, but its caller
discards that error, so the handler proceeds down the normal wait/timeout path:
the HTTP reply is ok (never an error mentioning dir), and the only outbound
messages are the timeout-path notifications (none at all when the event is
observed). -/
theorem init_empty_dir_error_discarded (s : Session) (dir : Option String) (evt : Bool)
    (hdir : dir.getD "" = "") (hni : s.inited = false) :
    initCall dir = .error "Empty dir" ∧
    (onInitReq s dir evt).2.1 = (if evt then [] else
      [.notify "initialized" "", .notify "workspace/didChangeConfiguration" ""]) ∧
    (onInitReq s dir evt).2.2 = .ok := by
  have hcall : initCall dir = .error "Empty dir" := by
    rw [initCall, if_pos hdir]
  refine ⟨hcall, ?_, ?_⟩ <;>
    rw [onInitReq, if_neg (by simp [hni])] <;>
    cases evt <;>
    simp [hcall]

theorem init_empty_dir_error_discarded_witness :
    initCall (none : Option String) = .error "Empty dir" :=
  (init_empty_dir_error_discarded
    { openFiles := fun _ => none, requestID := 1, inited := false }
    none false rfl rfl).1

end GoLspClient
